import Mathlib

set_option autoImplicit false

/-
Verification of the spend-breakdown-api response-validation and repair
pipeline (src/services/claudeService.js, src/routes/categorize.js).

JavaScript values flowing through the pipeline are modelled by the
inductive type `Json` below; numbers are modelled by `Rat` (the pipeline
performs no arithmetic on them, only carries them through).  Property
reads `o.k` become `Json.getField`, property writes `o.k = v` become
`Json.setField` (replace-in-place, preserving key order, as JS objects
do), and object spread becomes `spreadFields`.  `JSON.parse` is an
external builtin, so it is abstracted as a parse oracle
`parse : String -> Option Json` over which all theorems quantify; the
regex extraction step itself is modelled concretely.  A thrown JS
exception is an `Except.error`.
-/

inductive Json where
  | null
  | bool (b : Bool)
  | num (q : Rat)
  | str (s : String)
  | arr (elems : List Json)
  | obj (fields : List (String × Json))

/-- First-occurrence lookup in an association list of object fields
(JS objects have unique keys, so first = last occurrence). -/
def findField : List (String × Json) → String → Option Json
  | [], _ => none
  | (k, v) :: rest, key => if k = key then some v else findField rest key

/-- Replace the value at `key` in place (JS assignment keeps the original
key position); append at the end when the key is absent. -/
def setPairs : List (String × Json) → String → Json → List (String × Json)
  | [], key, v => [(key, v)]
  | (k, w) :: rest, key, v =>
      if k = key then (k, v) :: rest else (k, w) :: setPairs rest key v

/-- JS property read `o.k` on a non-null value: `none` models `undefined`
(also for reads on non-null primitives, which box and find nothing).
Reads on null throw in JS; that path is modelled by `jsGet` below, and
`getField` doubles as the pure field lookup used in specifications. -/
def Json.getField : Json → String → Option Json
  | .obj fs, key => findField fs key
  | _, _ => none

/-- The full JS property read `v.k`: a TypeError when `v` is null
(undefined cannot occur in parsed JSON, so null is the only throwing
case); otherwise the `getField` result. -/
def jsGet : Json → String → Except String (Option Json)
  | Json.null, key => Except.error ("Cannot read properties of null (reading " ++ key ++ ")")
  | v, key => Except.ok (v.getField key)

/-- JS property write `o.k = v` on an object; a no-op otherwise. -/
def Json.setField : Json → String → Json → Json
  | .obj fs, key, v => .obj (setPairs fs key v)
  | j, _, _ => j

/-- JS truthiness of a value. -/
def truthy : Json → Bool
  | .null => false
  | .bool b => b
  | .num q => decide (q ≠ 0)
  | .str s => decide (s ≠ "")
  | .arr _ => true
  | .obj _ => true

/-- Own enumerable string-keyed properties contributed by `{...v}`:
an object's fields; for a string, its indexed characters; for an array,
its indexed elements; nothing for other primitives (spreading null or
undefined contributes nothing and does not throw). -/
def spreadFields : Json → List (String × Json)
  | .obj fs => fs
  | .str s => s.data.enum.map fun p => (toString p.1, Json.str (String.mk [p.2]))
  | .arr l => l.enum.map fun p => (toString p.1, p.2)
  | _ => []

/-- The fixed taxonomy, VALID_CATEGORIES in src/services/claudeService.js. -/
def VALID_CATEGORIES : List String :=
  ["Groceries",
   "Dining & Takeout",
   "Transport",
   "Housing",
   "Utilities",
   "Banking & Fees",
   "Insurance",
   "Subscriptions",
   "Shopping",
   "Travel",
   "Healthcare",
   "Entertainment",
   "Education",
   "Pets",
   "Income",
   "Refunds",
   "Other"]

/-- The ternary of lines 124 / 259 applied to the already-read value of
`cat.category`: `VALID_CATEGORIES.includes(...) ? ... : 'Other'`
(an `includes` test against a non-string, e.g. `undefined`, is false). -/
def repairedLabel (c : Option Json) : Json :=
  match c with
  | some (Json.str s) =>
      if VALID_CATEGORIES.contains s then Json.str s else Json.str "Other"
  | _ => Json.str "Other"

/-- One element of the `result.categories.map` in lines 122-125 / 257-260:
`\x7b...cat, category: VALID_CATEGORIES.includes(cat.category) ? cat.category : 'Other'\x7d`.
The `cat.category` read throws a TypeError when the element is null, so
the callback is fallible. -/
def repairCategory (cat : Json) : Except String Json :=
  match jsGet cat "category" with
  | Except.error e => Except.error e
  | Except.ok c =>
      Except.ok (Json.obj (setPairs (spreadFields cat) "category" (repairedLabel c)))

/-- `cats.map(...)` with the fallible callback: JS evaluates the callback
left to right and the first thrown TypeError propagates. -/
def mapRepair : List Json → Except String (List Json)
  | [] => Except.ok []
  | c :: rest =>
      match repairCategory c with
      | Except.error e => Except.error e
      | Except.ok c2 =>
          match mapRepair rest with
          | Except.error e => Except.error e
          | Except.ok rest2 => Except.ok (c2 :: rest2)

/-- The canned generic insights of the repair step
(lines 129-133 and 264-268, identical in both entry points). -/
def defaultInsights : List String :=
  ["Upload more months to see personalized spending insights",
   "Track your largest expense categories to identify savings opportunities",
   "Set a savings goal to reduce spending in specific categories"]

/-- The test of lines 128 / 263:
`!result.insights || !Array.isArray(result.insights) || result.insights.length < 3`.
A missing field is `undefined`, which is falsy; every falsy value and
every truthy non-array also fails the `Array.isArray` test; the `.length`
read only happens on arrays thanks to `||` short-circuiting. -/
def insightsInvalid (r : Json) : Bool :=
  match r.getField "insights" with
  | none => true
  | some v =>
      !(truthy v) ||
        (match v with
         | Json.arr l => decide (l.length < 3)
         | _ => true)

/-- Lines 121-136 / 256-271: set `result.categories` to the repaired map,
then replace `result.insights` when invalid.  The `result.categories`
read throws on a null result, the `.map` throws when `categories` is
missing or not an array, and the map callback throws on a null element;
every such TypeError propagates to the surrounding catch, modelled as an
error. -/
def repairResult (result : Json) : Except String Json :=
  match jsGet result "categories" with
  | Except.error e => Except.error e
  | Except.ok (some (Json.arr cats)) =>
      match mapRepair cats with
      | Except.error e => Except.error e
      | Except.ok cats2 =>
          let step1 := result.setField "categories" (Json.arr cats2)
          if insightsInvalid step1 then
            Except.ok (step1.setField "insights" (Json.arr (defaultInsights.map Json.str)))
          else
            Except.ok step1
  | Except.ok _ => Except.error "result.categories.map is not a function"

/-- Input transaction shape (data model of the spec, validated by the
route): description, numeric amount, optional date. -/
structure Transaction where
  description : String
  amount : Rat
  date : Option String
deriving DecidableEq

/-- One element of the text-mode fallback map (lines 107-112):
`\x7bdescription: t.description, amount: t.amount, date: t.date, category: 'Other'\x7d`;
when `t.date` is `undefined`, the key serializes to nothing, modelled as
an absent key. -/
def echoTransaction (t : Transaction) : Json :=
  Json.obj
    ([("description", Json.str t.description), ("amount", Json.num t.amount)]
      ++ (match t.date with
          | some d => [("date", Json.str d)]
          | none => [])
      ++ [("category", Json.str "Other")])

/-- The text-mode extraction-failure insights (lines 113-117). -/
def fallbackInsightsText : List String :=
  ["Unable to generate AI insights at this time",
   "Your transactions have been categorized with default categories",
   "Please try uploading again for AI-powered categorization"]

/-- The text-mode extraction-failure fallback result (lines 106-118). -/
def fallbackTextResult (transactions : List Transaction) : Json :=
  Json.obj
    [("categories", Json.arr (transactions.map echoTransaction)),
     ("insights", Json.arr (fallbackInsightsText.map Json.str))]

/-- The document-mode extraction-failure insights (lines 249-252). -/
def fallbackInsightsPdf : List String :=
  ["Unable to extract transactions from PDF at this time",
   "Please ensure your PDF is a valid bank statement",
   "Try uploading a CSV file instead for better results"]

/-- The document-mode extraction-failure fallback result (lines 246-254). -/
def fallbackPdfResult : Json :=
  Json.obj
    [("categories", Json.arr []),
     ("insights", Json.arr (fallbackInsightsPdf.map Json.str))]

/-- Index of the first occurrence of a left brace. -/
def firstBraceIdx : List Char → Option Nat
  | [] => none
  | c :: cs => if c = '\x7b' then some 0 else (firstBraceIdx cs).map (· + 1)

/-- Index of the last occurrence of a right brace. -/
def lastCloseIdx : List Char → Option Nat
  | [] => none
  | c :: cs =>
      match lastCloseIdx cs with
      | some j => some (j + 1)
      | none => if c = '\x7d' then some 0 else none

/-- `responseText.match` with the greedy brace regex of lines 95 / 235:
the engine anchors at the first left brace that is followed by some right
brace, and the greedy any-character star makes it end at the last right
brace of the whole text (any right brace after a later left brace also
follows the first one, so anchoring at the first left brace suffices). -/
def extractBraces (s : String) : Option String :=
  match firstBraceIdx s.data, lastCloseIdx s.data with
  | some i, some j =>
      if i < j then some (String.mk ((s.data.drop i).take (j + 1 - i))) else none
  | _, _ => none

/-- The whole extraction step (lines 93-100 / 233-240): the regex match
followed by `JSON.parse` of the matched substring; `none` is the path
that throws into the parse-error catch. -/
def extractResult (parse : String → Option Json) (s : String) : Option Json :=
  (extractBraces s).bind parse

/-- Outcome of the `anthropic.messages.create` call: the response text,
or a raised provider error with its message. -/
inductive ProviderResult where
  | ok (responseText : String)
  | err (message : String)

/-- categorizeTransactions, lines 76-144 of src/services/claudeService.js,
after the provider call: extraction failure is absorbed into the
text-mode fallback; any error thrown afterwards (and a provider failure)
is wrapped by the outer catch into `Categorization failed: ...`. -/
def categorizeTransactions (parse : String → Option Json)
    (transactions : List Transaction) : ProviderResult → Except String Json
  | .err msg => Except.error ("Categorization failed: " ++ msg)
  | .ok responseText =>
      let result : Json :=
        match extractResult parse responseText with
        | some r => r
        | none => fallbackTextResult transactions
      match repairResult result with
      | Except.ok r => Except.ok r
      | Except.error msg => Except.error ("Categorization failed: " ++ msg)

/-- Character-list test that `pat` occurs as a contiguous run inside `l`. -/
def hasPrefixCh : List Char → List Char → Bool
  | _, [] => true
  | [], _ :: _ => false
  | a :: as, b :: bs => a = b && hasPrefixCh as bs

def hasSubstrCh : List Char → List Char → Bool
  | [], pat => pat.isEmpty
  | a :: as, pat => hasPrefixCh (a :: as) pat || hasSubstrCh as pat

/-- JS `s.includes(sub)`. -/
def strIncludes (s sub : String) : Bool :=
  hasSubstrCh s.data sub.data

/-- The catch block of lines 272-285: a message containing `invalid_pdf`
is replaced by a fixed friendly message; otherwise the cause is wrapped. -/
def pdfErrorMessage (msg : String) : String :=
  if strIncludes msg "invalid_pdf" then
    "Invalid PDF file. Please upload a valid bank statement PDF."
  else
    "PDF processing failed: " ++ msg

/-- categorizePdfStatement, lines 203-286 of src/services/claudeService.js,
after the provider call: extraction failure is absorbed into the
document-mode fallback (empty categories); any error thrown afterwards
(and a provider failure) goes through the catch of lines 272-285. -/
def categorizePdfStatement (parse : String → Option Json) :
    ProviderResult → Except String Json
  | .err msg => Except.error (pdfErrorMessage msg)
  | .ok responseText =>
      let result : Json :=
        match extractResult parse responseText with
        | some r => r
        | none => fallbackPdfResult
      match repairResult result with
      | Except.ok r => Except.ok r
      | Except.error msg => Except.error (pdfErrorMessage msg)

/-- The per-element test of line 38 of src/routes/categorize.js for a
non-null element, where the `transaction.description` read does not
throw: `!transaction.description || typeof transaction.amount !== 'number'`. -/
def transactionInvalid (t : Json) : Bool :=
  (match t.getField "description" with
   | some v => !(truthy v)
   | none => true) ||
    (match t.getField "amount" with
     | some (Json.num _) => false
     | _ => true)

/-- What the text-mode route does with a request body: reject with a 400
message, fail with a 500 (an exception reached the route's catch), or
call the service on the transactions array. -/
inductive RouteAction where
  | reject (message : String)
  | serverError (message : String)
  | callService (transactions : List Json)

/-- Test for the one value whose property reads throw. -/
def Json.isNull : Json → Bool
  | .null => true
  | _ => false

/-- The for-loop of lines 37-44: elements are inspected left to right;
reading `.description` on a null element throws a TypeError that the
route's catch turns into a 500, and an invalid element returns the 400
with the fixed message. -/
def findElemFailure : List Json → Option RouteAction
  | [] => none
  | t :: rest =>
      if t.isNull then
        some (RouteAction.serverError "Cannot read properties of null (reading description)")
      else if transactionInvalid t then
        some (RouteAction.reject "Each transaction must have description (string) and amount (number)")
      else
        findElemFailure rest

/-- The validation of lines 12-47 of src/routes/categorize.js.  The
destructuring read of `req.body.transactions` throws on a null body
(caught as a 500); a missing, falsy, or non-array `transactions` takes
the first reject branch (every falsy value is a non-array); then the
length checks and the element loop run in order. -/
def categorizeRoute (body : Json) : RouteAction :=
  match jsGet body "transactions" with
  | Except.error e => RouteAction.serverError e
  | Except.ok (some (Json.arr ts)) =>
      if ts.length = 0 then
        RouteAction.reject "transactions array cannot be empty"
      else if 1000 < ts.length then
        RouteAction.reject "Maximum 1000 transactions allowed per request"
      else
        match findElemFailure ts with
        | some act => act
        | none => RouteAction.callService ts
  | Except.ok _ => RouteAction.reject "transactions array is required"

/-- A parsed result has a `categories` field holding an array. -/
def hasArrayField (r : Json) (key : String) : Bool :=
  match r.getField key with
  | some (Json.arr _) => true
  | _ => false

/-- A single element that the repair step leaves untouched: an object
whose `category` is an exact taxonomy member. -/
def catValid (c : Json) : Bool :=
  match c with
  | Json.obj _ =>
      match c.getField "category" with
      | some (Json.str s) => VALID_CATEGORIES.contains s
      | _ => false
  | _ => false

/-- An already-valid result: `categories` an array of valid elements and
`insights` an array of at least 3 elements. -/
def isValidResult (r : Json) : Bool :=
  match r.getField "categories", r.getField "insights" with
  | some (Json.arr cs), some (Json.arr ins) => cs.all catValid && decide (3 ≤ ins.length)
  | _, _ => false

/-- A parse oracle that never succeeds, for concrete instantiations. -/
def parseNone : String → Option Json := fun _ => none

/-- A parse oracle returning a syntactically fine object whose categories
field is not an array, for concrete instantiations. -/
def sampleBadParse : String → Option Json :=
  fun _ => some (Json.obj [("categories", Json.str "nope")])

/-- A concrete already-valid result. -/
def sampleValidResult : Json :=
  Json.obj
    [("categories", Json.arr
        [Json.obj [("description", Json.str "Cafe Mocha"), ("amount", Json.num (-5)),
                   ("category", Json.str "Groceries")]]),
     ("insights", Json.arr [Json.str "a", Json.str "b", Json.str "c"])]

/-- A concrete parsed result with a single insight string. -/
def sampleShortInsights : Json :=
  Json.obj
    [("categories", Json.arr []),
     ("insights", Json.arr [Json.str "Only one insight"])]

/-- A request body whose transaction has a present-but-empty description
and a numeric amount. -/
def sampleEmptyDescBody : Json :=
  Json.obj
    [("transactions", Json.arr
        [Json.obj [("description", Json.str ""), ("amount", Json.num 5)]])]

/-- A request body passing every route check. -/
def sampleGoodBody : Json :=
  Json.obj
    [("transactions", Json.arr
        [Json.obj [("description", Json.str "Coffee"), ("amount", Json.num 4)]])]

/-- A concrete parsed category element with an out-of-taxonomy label. -/
def sampleElement : Json :=
  Json.obj
    [("description", Json.str "Tea"), ("amount", Json.num 3),
     ("category", Json.str "Bogus")]

/-- A syntactically valid parsed result whose categories array contains
a null element (and whose insights are too short). -/
def sampleNullCatResult : Json :=
  Json.obj [("categories", Json.arr [Json.null]), ("insights", Json.arr [])]

/-- A parse oracle returning `sampleNullCatResult`. -/
def sampleNullCatParse : String → Option Json :=
  fun _ => some sampleNullCatResult

theorem findField_setPairs_self (fs : List (String × Json)) (key : String) (v : Json) :
    findField (setPairs fs key v) key = some v := by
  induction fs with
  | nil => simp [setPairs, findField]
  | cons p rest ih =>
    obtain ⟨k, w⟩ := p
    by_cases h : k = key
    · simp [setPairs, findField, h]
    · simp [setPairs, findField, h, ih]

theorem findField_setPairs_ne (fs : List (String × Json)) (key : String) (v : Json)
    (k : String) (hne : k ≠ key) : findField (setPairs fs key v) k = findField fs k := by
  induction fs with
  | nil => simp [setPairs, findField, Ne.symm hne]
  | cons p rest ih =>
    obtain ⟨k0, w⟩ := p
    by_cases h : k0 = key
    · subst h
      simp [setPairs, findField, Ne.symm hne]
    · simp only [setPairs, if_neg h]
      by_cases h0 : k0 = k
      · simp [findField, h0]
      · simp [findField, h0, ih]

theorem setPairs_id (fs : List (String × Json)) (key : String) (v : Json)
    (h : findField fs key = some v) : setPairs fs key v = fs := by
  induction fs with
  | nil => simp [findField] at h
  | cons p rest ih =>
    obtain ⟨k, w⟩ := p
    by_cases hk : k = key
    · simp [findField, hk] at h
      simp [setPairs, hk, h]
    · simp [findField, hk] at h
      simp [setPairs, hk, ih h]

theorem getField_some_obj {r : Json} {key : String} {v : Json}
    (h : r.getField key = some v) : ∃ fs, r = Json.obj fs := by
  cases r <;> simp [Json.getField] at h ⊢

theorem insightsInvalid_ext {a b : Json} (h : a.getField "insights" = b.getField "insights") :
    insightsInvalid a = insightsInvalid b := by
  unfold insightsInvalid
  rw [h]

theorem insightsInvalid_false {r : Json} (h : insightsInvalid r = false) :
    ∃ l, r.getField "insights" = some (Json.arr l) ∧ 3 ≤ l.length := by
  unfold insightsInvalid at h
  cases hf : r.getField "insights" with
  | none => rw [hf] at h; simp at h
  | some v =>
    rw [hf] at h
    cases v <;> simp [truthy] at h
    exact ⟨_, rfl, by omega⟩

theorem jsGet_ne_null {r : Json} (h : r ≠ Json.null) (key : String) :
    jsGet r key = Except.ok (r.getField key) := by
  cases r with
  | null => exact absurd rfl h
  | bool b => rfl
  | num q => rfl
  | str s => rfl
  | arr l => rfl
  | obj fs => rfl

theorem jsGet_ok_getField {r : Json} {key : String} {o : Option Json}
    (h : jsGet r key = Except.ok o) : r.getField key = o := by
  cases r with
  | null => exact absurd h (by simp [jsGet])
  | bool b => injection h
  | num q => injection h
  | str s => injection h
  | arr l => injection h
  | obj fs => injection h

theorem getField_some_jsGet {r : Json} {key : String} {v : Json}
    (h : r.getField key = some v) : jsGet r key = Except.ok (some v) := by
  obtain ⟨fs, rfl⟩ := getField_some_obj h
  rw [jsGet_ne_null (fun hx => Json.noConfusion hx) key, h]

theorem repairCategory_null :
    repairCategory Json.null =
      Except.error "Cannot read properties of null (reading category)" := rfl

theorem repairCategory_ne_null {c : Json} (h : c ≠ Json.null) :
    repairCategory c =
      Except.ok (Json.obj (setPairs (spreadFields c) "category"
        (repairedLabel (c.getField "category")))) := by
  unfold repairCategory
  rw [jsGet_ne_null h]

theorem repairedLabel_valid (o : Option Json) :
    ∃ s, repairedLabel o = Json.str s ∧ VALID_CATEGORIES.contains s = true := by
  unfold repairedLabel
  cases o with
  | none => exact ⟨"Other", rfl, by decide⟩
  | some v =>
    cases v with
    | str s =>
      by_cases hv : VALID_CATEGORIES.contains s = true
      · refine ⟨s, ?_, hv⟩
        show (if VALID_CATEGORIES.contains s = true then Json.str s else Json.str "Other") =
          Json.str s
        rw [if_pos hv]
      · refine ⟨"Other", ?_, by decide⟩
        show (if VALID_CATEGORIES.contains s = true then Json.str s else Json.str "Other") =
          Json.str "Other"
        rw [if_neg hv]
    | null => exact ⟨"Other", rfl, by decide⟩
    | bool b => exact ⟨"Other", rfl, by decide⟩
    | num q => exact ⟨"Other", rfl, by decide⟩
    | arr l => exact ⟨"Other", rfl, by decide⟩
    | obj fs => exact ⟨"Other", rfl, by decide⟩

theorem repairCategory_ok_label {c c2 : Json} (h : repairCategory c = Except.ok c2) :
    ∃ s, c2.getField "category" = some (Json.str s) ∧
      VALID_CATEGORIES.contains s = true := by
  by_cases hn : c = Json.null
  · subst hn
    rw [repairCategory_null] at h
    exact Except.noConfusion h
  · rw [repairCategory_ne_null hn] at h
    injection h with h2
    subst h2
    obtain ⟨s, hs, hv⟩ := repairedLabel_valid (c.getField "category")
    refine ⟨s, ?_, hv⟩
    show findField (setPairs (spreadFields c) "category"
      (repairedLabel (c.getField "category"))) "category" = some (Json.str s)
    rw [findField_setPairs_self, hs]

theorem repairCategory_frame (fs : List (String × Json)) (k : String)
    (hk : k ≠ "category") {c2 : Json}
    (h : repairCategory (Json.obj fs) = Except.ok c2) :
    c2.getField k = findField fs k := by
  rw [repairCategory_ne_null (fun hx => Json.noConfusion hx)] at h
  injection h with h2
  subst h2
  show findField (setPairs (spreadFields (Json.obj fs)) "category"
    (repairedLabel ((Json.obj fs).getField "category"))) k = findField fs k
  exact findField_setPairs_ne _ _ _ _ hk

theorem catValid_repair_id {c : Json} (h : catValid c = true) :
    repairCategory c = Except.ok c := by
  cases c with
  | obj fs =>
    unfold catValid at h
    cases hc : (Json.obj fs).getField "category" with
    | none => rw [hc] at h; simp at h
    | some v =>
      rw [hc] at h
      cases v <;> simp at h
      case str s =>
        have hb : VALID_CATEGORIES.contains s = true := by simpa using h
        have hl : repairedLabel ((Json.obj fs).getField "category") = Json.str s := by
          rw [hc]
          unfold repairedLabel
          show (if VALID_CATEGORIES.contains s = true then Json.str s else Json.str "Other") =
            Json.str s
          rw [if_pos hb]
        rw [repairCategory_ne_null (fun hx => Json.noConfusion hx), hl]
        show Except.ok (Json.obj (setPairs fs "category" (Json.str s))) = _
        rw [setPairs_id fs "category" (Json.str s) hc]
  | null => simp [catValid] at h
  | bool b => simp [catValid] at h
  | num q => simp [catValid] at h
  | str s => simp [catValid] at h
  | arr l => simp [catValid] at h

theorem all_catValid_map_id {cs : List Json} (h : cs.all catValid = true) :
    mapRepair cs = Except.ok cs := by
  induction cs with
  | nil => rfl
  | cons c rest ih =>
    simp only [List.all_cons, Bool.and_eq_true] at h
    unfold mapRepair
    rw [catValid_repair_id h.1, ih h.2]

theorem mapRepair_mem {cs cs2 : List Json} (h : mapRepair cs = Except.ok cs2) :
    ∀ c2 ∈ cs2, ∃ c ∈ cs, repairCategory c = Except.ok c2 := by
  induction cs generalizing cs2 with
  | nil =>
    unfold mapRepair at h
    injection h with h2
    subst h2
    intro c2 hc2
    exact absurd hc2 (List.not_mem_nil c2)
  | cons c rest ih =>
    unfold mapRepair at h
    cases hr : repairCategory c with
    | error e => rw [hr] at h; exact Except.noConfusion h
    | ok c2 =>
      rw [hr] at h
      cases hm : mapRepair rest with
      | error e => rw [hm] at h; exact Except.noConfusion h
      | ok rest2 =>
        rw [hm] at h
        injection h with h2
        subst h2
        intro x hx
        rcases List.mem_cons.mp hx with hx | hx
        · exact ⟨c, List.mem_cons_self c rest, by rw [hx]; exact hr⟩
        · obtain ⟨c0, hc0, hc0r⟩ := ih hm x hx
          exact ⟨c0, List.mem_cons_of_mem c hc0, hc0r⟩

theorem mapRepair_ok_pointwise {cs : List Json} (h : Json.null ∉ cs) :
    ∃ cs2, mapRepair cs = Except.ok cs2 ∧ cs2.length = cs.length ∧
      ∀ (i : Nat) (c : Json), cs[i]? = some c →
        ∃ c2, repairCategory c = Except.ok c2 ∧ cs2[i]? = some c2 := by
  induction cs with
  | nil => exact ⟨[], rfl, rfl, by intro i c hc; simp at hc⟩
  | cons c rest ih =>
    have hcn : c ≠ Json.null := by
      intro hx
      rw [hx] at h
      exact h (List.mem_cons_self _ _)
    have hrest : Json.null ∉ rest := fun hx => h (List.mem_cons_of_mem c hx)
    obtain ⟨cs2, h1, h2, h3⟩ := ih hrest
    obtain ⟨c2, hc2⟩ : ∃ c2, repairCategory c = Except.ok c2 :=
      ⟨_, repairCategory_ne_null hcn⟩
    refine ⟨c2 :: cs2, ?_, by simp [h2], ?_⟩
    · unfold mapRepair
      rw [hc2, h1]
    · intro i x hx
      cases i with
      | zero =>
        simp only [List.getElem?_cons_zero, Option.some.injEq] at hx
        subst hx
        exact ⟨c2, hc2, by simp⟩
      | succ i =>
        simp only [List.getElem?_cons_succ] at hx
        obtain ⟨y2, hy1, hy2⟩ := h3 i x hx
        exact ⟨y2, hy1, by simpa using hy2⟩

theorem mapRepair_null_error {cs : List Json} (h : Json.null ∈ cs) :
    ∃ e, mapRepair cs = Except.error e := by
  induction cs with
  | nil => exact absurd h (List.not_mem_nil _)
  | cons c rest ih =>
    rcases List.mem_cons.mp h with hc | hc
    · subst hc
      exact ⟨_, rfl⟩
    · obtain ⟨e, he⟩ := ih hc
      cases hr : repairCategory c with
      | error e2 => exact ⟨e2, by unfold mapRepair; rw [hr]⟩
      | ok c2 => exact ⟨e, by unfold mapRepair; rw [hr, he]⟩

theorem repairResult_map_error {r : Json} {cats : List Json} {e : String}
    (hj : jsGet r "categories" = Except.ok (some (Json.arr cats)))
    (hm : mapRepair cats = Except.error e) :
    repairResult r = Except.error e := by
  unfold repairResult
  simp only [hj, hm]

theorem repairResult_obj (fs : List (String × Json)) (cats cats2 : List Json)
    (hc : findField fs "categories" = some (Json.arr cats))
    (hm : mapRepair cats = Except.ok cats2) :
    repairResult (Json.obj fs) =
      if insightsInvalid (Json.obj (setPairs fs "categories" (Json.arr cats2))) then
        Except.ok ((Json.obj (setPairs fs "categories" (Json.arr cats2))).setField
          "insights" (Json.arr (defaultInsights.map Json.str)))
      else
        Except.ok (Json.obj (setPairs fs "categories" (Json.arr cats2))) := by
  have hj : jsGet (Json.obj fs) "categories" = Except.ok (some (Json.arr cats)) :=
    getField_some_jsGet hc
  unfold repairResult
  simp only [hj, hm]
  rfl

theorem repairResult_error {r : Json} (h : hasArrayField r "categories" = false) :
    ∃ e, repairResult r = Except.error e := by
  cases r with
  | null => exact ⟨_, rfl⟩
  | bool b => exact ⟨_, rfl⟩
  | num q => exact ⟨_, rfl⟩
  | str s => exact ⟨_, rfl⟩
  | arr l => exact ⟨_, rfl⟩
  | obj fs =>
    unfold hasArrayField at h
    cases hc : (Json.obj fs).getField "categories" with
    | none =>
      have hj : jsGet (Json.obj fs) "categories" = Except.ok none := by
        rw [jsGet_ne_null (fun hx => Json.noConfusion hx), hc]
      refine ⟨"result.categories.map is not a function", ?_⟩
      unfold repairResult
      simp only [hj]
    | some v =>
      rw [hc] at h
      have hj : jsGet (Json.obj fs) "categories" = Except.ok (some v) := by
        rw [jsGet_ne_null (fun hx => Json.noConfusion hx), hc]
      cases v
      case arr => simp at h
      all_goals
        refine ⟨"result.categories.map is not a function", ?_⟩
      all_goals
        unfold repairResult
      all_goals
        simp only [hj]

theorem echo_catValid (t : Transaction) : catValid (echoTransaction t) = true := by
  obtain ⟨d, a, dt⟩ := t
  cases dt <;> rfl

theorem fallbackText_valid (txns : List Transaction) :
    isValidResult (fallbackTextResult txns) = true := by
  show ((txns.map echoTransaction).all catValid &&
    decide (3 ≤ (fallbackInsightsText.map Json.str).length)) = true
  rw [Bool.and_eq_true]
  refine ⟨?_, by decide⟩
  rw [List.all_eq_true]
  intro c hcmem
  obtain ⟨t, _, rfl⟩ := List.mem_map.mp hcmem
  exact echo_catValid t

theorem fallbackPdf_valid : isValidResult fallbackPdfResult = true := rfl

theorem repairResult_valid_id {r : Json} (h : isValidResult r = true) :
    repairResult r = Except.ok r := by
  unfold isValidResult at h
  cases hc : r.getField "categories" with
  | none => rw [hc] at h; simp at h
  | some v =>
    rw [hc] at h
    cases v
    case arr cs =>
      cases hi : r.getField "insights" with
      | none => rw [hi] at h; simp at h
      | some w =>
        rw [hi] at h
        cases w
        case arr ins =>
          simp only [Bool.and_eq_true, decide_eq_true_eq] at h
          obtain ⟨hall, hlen⟩ := h
          obtain ⟨fs, rfl⟩ := getField_some_obj hc
          rw [repairResult_obj fs cs cs hc (all_catValid_map_id hall)]
          rw [setPairs_id fs "categories" (Json.arr cs) hc]
          have hii : insightsInvalid (Json.obj fs) = false := by
            unfold insightsInvalid
            rw [hi]
            simp [truthy]
            omega
          rw [hii]
          simp
        all_goals simp at h
    all_goals (cases hi : r.getField "insights" <;> rw [hi] at h <;> simp at h)

theorem repairResult_ok_categories {r r' : Json} (h : repairResult r = Except.ok r') :
    ∃ cats cats2, r.getField "categories" = some (Json.arr cats) ∧
      mapRepair cats = Except.ok cats2 ∧
      r'.getField "categories" = some (Json.arr cats2) := by
  cases hj : jsGet r "categories" with
  | error e =>
    unfold repairResult at h
    rw [hj] at h
    exact Except.noConfusion h
  | ok o =>
    have hg : r.getField "categories" = o := jsGet_ok_getField hj
    cases o with
    | none =>
      unfold repairResult at h
      simp only [hj] at h
      exact Except.noConfusion h
    | some v =>
      cases v
      case arr cats =>
        cases hm : mapRepair cats with
        | error e =>
          rw [repairResult_map_error hj hm] at h
          exact Except.noConfusion h
        | ok cats2 =>
          obtain ⟨fs, rfl⟩ := getField_some_obj hg
          rw [repairResult_obj fs cats cats2 hg hm] at h
          by_cases hins : insightsInvalid (Json.obj (setPairs fs "categories"
              (Json.arr cats2))) = true
          · rw [if_pos hins] at h
            injection h with h2
            subst h2
            refine ⟨cats, cats2, hg, hm, ?_⟩
            show findField (setPairs (setPairs fs "categories" (Json.arr cats2)) "insights"
              (Json.arr (defaultInsights.map Json.str))) "categories" = _
            rw [findField_setPairs_ne _ _ _ _ (by decide), findField_setPairs_self]
          · rw [if_neg hins] at h
            injection h with h2
            subst h2
            refine ⟨cats, cats2, hg, hm, ?_⟩
            show findField (setPairs fs "categories" (Json.arr cats2)) "categories" = _
            rw [findField_setPairs_self]
      all_goals
        unfold repairResult at h
      all_goals
        simp only [hj] at h
      all_goals
        exact Except.noConfusion h

theorem repairResult_ok_insights {r r' : Json} (h : repairResult r = Except.ok r') :
    ∃ l, r'.getField "insights" = some (Json.arr l) ∧ 3 ≤ l.length := by
  cases hj : jsGet r "categories" with
  | error e =>
    unfold repairResult at h
    rw [hj] at h
    exact Except.noConfusion h
  | ok o =>
    have hg : r.getField "categories" = o := jsGet_ok_getField hj
    cases o with
    | none =>
      unfold repairResult at h
      simp only [hj] at h
      exact Except.noConfusion h
    | some v =>
      cases v
      case arr cats =>
        cases hm : mapRepair cats with
        | error e =>
          rw [repairResult_map_error hj hm] at h
          exact Except.noConfusion h
        | ok cats2 =>
          obtain ⟨fs, rfl⟩ := getField_some_obj hg
          rw [repairResult_obj fs cats cats2 hg hm] at h
          by_cases hins : insightsInvalid (Json.obj (setPairs fs "categories"
              (Json.arr cats2))) = true
          · rw [if_pos hins] at h
            injection h with h2
            subst h2
            refine ⟨defaultInsights.map Json.str, ?_, by decide⟩
            show findField (setPairs (setPairs fs "categories" (Json.arr cats2)) "insights"
              (Json.arr (defaultInsights.map Json.str))) "insights" = _
            rw [findField_setPairs_self]
          · rw [if_neg hins] at h
            injection h with h2
            subst h2
            exact insightsInvalid_false (by simpa using hins)
      all_goals
        unfold repairResult at h
      all_goals
        simp only [hj] at h
      all_goals
        exact Except.noConfusion h

theorem repairResult_insights_replaced {r : Json} {cats : List Json}
    (hc : r.getField "categories" = some (Json.arr cats))
    (hnn : Json.null ∉ cats)
    (hbad : insightsInvalid r = true) :
    ∃ r', repairResult r = Except.ok r' ∧
      r'.getField "insights" = some (Json.arr (defaultInsights.map Json.str)) := by
  obtain ⟨fs, rfl⟩ := getField_some_obj hc
  obtain ⟨cats2, hm, _, _⟩ := mapRepair_ok_pointwise hnn
  have hstep : insightsInvalid (Json.obj (setPairs fs "categories"
      (Json.arr cats2))) = true := by
    rw [insightsInvalid_ext (b := Json.obj fs) ?_]
    · exact hbad
    · show findField (setPairs fs "categories" (Json.arr cats2)) "insights" =
        findField fs "insights"
      exact findField_setPairs_ne _ _ _ _ (by decide)
  rw [repairResult_obj fs cats cats2 hc hm, if_pos hstep]
  refine ⟨_, rfl, ?_⟩
  show findField (setPairs (setPairs fs "categories" (Json.arr cats2)) "insights"
    (Json.arr (defaultInsights.map Json.str))) "insights" = _
  rw [findField_setPairs_self]

theorem categorizeTransactions_err (parse : String → Option Json)
    (txns : List Transaction) (m : String) :
    categorizeTransactions parse txns (ProviderResult.err m) =
      Except.error ("Categorization failed: " ++ m) := rfl

theorem categorizePdfStatement_err (parse : String → Option Json) (m : String) :
    categorizePdfStatement parse (ProviderResult.err m) =
      Except.error (pdfErrorMessage m) := rfl

theorem categorizeTransactions_ok_eq (parse : String → Option Json)
    (txns : List Transaction) (s : String) :
    categorizeTransactions parse txns (ProviderResult.ok s) =
      match repairResult (match extractResult parse s with
        | some r => r
        | none => fallbackTextResult txns) with
      | Except.ok r => Except.ok r
      | Except.error msg => Except.error ("Categorization failed: " ++ msg) := rfl

theorem categorizePdfStatement_ok_eq (parse : String → Option Json) (s : String) :
    categorizePdfStatement parse (ProviderResult.ok s) =
      match repairResult (match extractResult parse s with
        | some r => r
        | none => fallbackPdfResult) with
      | Except.ok r => Except.ok r
      | Except.error msg => Except.error (pdfErrorMessage msg) := rfl

theorem categorize_ok_repair {parse : String → Option Json} {txns : List Transaction}
    {pr : ProviderResult} {r : Json}
    (h : categorizeTransactions parse txns pr = Except.ok r) :
    ∃ x, repairResult x = Except.ok r := by
  cases pr with
  | err m => rw [categorizeTransactions_err] at h; simp at h
  | ok s =>
    rw [categorizeTransactions_ok_eq] at h
    cases hr : repairResult (match extractResult parse s with
        | some x => x
        | none => fallbackTextResult txns) with
    | ok y => rw [hr] at h; simp only [Except.ok.injEq] at h; exact ⟨_, h ▸ hr⟩
    | error m => rw [hr] at h; simp at h

theorem categorizePdf_ok_repair {parse : String → Option Json}
    {pr : ProviderResult} {r : Json}
    (h : categorizePdfStatement parse pr = Except.ok r) :
    ∃ x, repairResult x = Except.ok r := by
  cases pr with
  | err m => rw [categorizePdfStatement_err] at h; simp at h
  | ok s =>
    rw [categorizePdfStatement_ok_eq] at h
    cases hr : repairResult (match extractResult parse s with
        | some x => x
        | none => fallbackPdfResult) with
    | ok y => rw [hr] at h; simp only [Except.ok.injEq] at h; exact ⟨_, h ▸ hr⟩
    | error m => rw [hr] at h; simp at h

theorem categorizeTransactions_extractFail {parse : String → Option Json} {s : String}
    (txns : List Transaction) (he : extractResult parse s = none) :
    categorizeTransactions parse txns (ProviderResult.ok s) =
      Except.ok (fallbackTextResult txns) := by
  rw [categorizeTransactions_ok_eq]
  simp only [he]
  rw [repairResult_valid_id (fallbackText_valid txns)]

theorem categorizePdfStatement_extractFail {parse : String → Option Json} {s : String}
    (he : extractResult parse s = none) :
    categorizePdfStatement parse (ProviderResult.ok s) = Except.ok fallbackPdfResult := by
  rw [categorizePdfStatement_ok_eq]
  simp only [he]
  rw [repairResult_valid_id fallbackPdf_valid]

theorem hasPrefixCh_self (l : List Char) : hasPrefixCh l l = true := by
  induction l with
  | nil => rfl
  | cons a as ih => simp [hasPrefixCh, ih]

theorem hasSubstrCh_suffix (xs ys : List Char) : hasSubstrCh (xs ++ ys) ys = true := by
  induction xs with
  | nil =>
    cases ys with
    | nil => rfl
    | cons a as => simp [hasSubstrCh, hasPrefixCh_self]
  | cons x xs ih =>
    simp [hasSubstrCh, ih]

theorem strIncludes_append (p m : String) : strIncludes (p ++ m) m = true := by
  unfold strIncludes
  rw [String.data_append]
  exact hasSubstrCh_suffix p.data m.data

theorem firstBraceIdx_none {cs : List Char} (h : firstBraceIdx cs = none) :
    ∀ k : Nat, cs[k]? ≠ some '\x7b' := by
  induction cs with
  | nil => intro k; simp
  | cons c rest ih =>
    unfold firstBraceIdx at h
    by_cases hc : c = '\x7b'
    · rw [if_pos hc] at h; simp at h
    · rw [if_neg hc] at h
      have hr : firstBraceIdx rest = none := by
        cases hf : firstBraceIdx rest with
        | none => rfl
        | some i => rw [hf] at h; simp at h
      intro k
      cases k with
      | zero => simpa using hc
      | succ k => simpa using ih hr k

theorem firstBraceIdx_spec {cs : List Char} {i : Nat} (h : firstBraceIdx cs = some i) :
    cs[i]? = some '\x7b' ∧ ∀ k : Nat, k < i → cs[k]? ≠ some '\x7b' := by
  induction cs generalizing i with
  | nil => simp [firstBraceIdx] at h
  | cons c rest ih =>
    unfold firstBraceIdx at h
    by_cases hc : c = '\x7b'
    · rw [if_pos hc] at h
      simp only [Option.some.injEq] at h
      subst h
      refine ⟨by simpa using hc, ?_⟩
      intro k hk
      exact absurd hk (Nat.not_lt_zero k)
    · rw [if_neg hc] at h
      cases hf : firstBraceIdx rest with
      | none => rw [hf] at h; simp at h
      | some i0 =>
        rw [hf] at h
        simp only [Option.map_some', Option.some.injEq] at h
        subst h
        obtain ⟨h1, h2⟩ := ih hf
        refine ⟨by simpa using h1, ?_⟩
        intro k hk
        cases k with
        | zero => simpa using hc
        | succ k => simpa using h2 k (by omega)

theorem lastCloseIdx_none {cs : List Char} (h : lastCloseIdx cs = none) :
    ∀ k : Nat, cs[k]? ≠ some '\x7d' := by
  induction cs with
  | nil => intro k; simp
  | cons c rest ih =>
    unfold lastCloseIdx at h
    cases hl : lastCloseIdx rest with
    | some j => rw [hl] at h; simp at h
    | none =>
      rw [hl] at h
      have hc : c ≠ '\x7d' := by
        by_cases hcc : c = '\x7d'
        · rw [if_pos hcc] at h; simp at h
        · exact hcc
      intro k
      cases k with
      | zero => simpa using hc
      | succ k => simpa using ih hl k

theorem lastCloseIdx_spec {cs : List Char} {j : Nat} (h : lastCloseIdx cs = some j) :
    cs[j]? = some '\x7d' ∧ ∀ k : Nat, j < k → cs[k]? ≠ some '\x7d' := by
  induction cs generalizing j with
  | nil => simp [lastCloseIdx] at h
  | cons c rest ih =>
    unfold lastCloseIdx at h
    cases hl : lastCloseIdx rest with
    | some j0 =>
      rw [hl] at h
      simp only [Option.some.injEq] at h
      subst h
      obtain ⟨h1, h2⟩ := ih hl
      refine ⟨by simpa using h1, ?_⟩
      intro k hk
      cases k with
      | zero => exact absurd hk (by omega)
      | succ k => simpa using h2 k (by omega)
    | none =>
      rw [hl] at h
      by_cases hc : c = '\x7d'
      · rw [if_pos hc] at h
        simp only [Option.some.injEq] at h
        subst h
        refine ⟨by simpa using hc, ?_⟩
        intro k hk
        cases k with
        | zero => exact absurd hk (by omega)
        | succ k => simpa using lastCloseIdx_none hl k
      · rw [if_neg hc] at h
        simp at h

theorem extractBraces_none_iff (s : String) :
    extractBraces s = none ↔
      ¬ ∃ i j : Nat, i < j ∧ s.data[i]? = some '\x7b' ∧ s.data[j]? = some '\x7d' := by
  constructor
  · rintro h ⟨i, j, hij, hi, hj⟩
    unfold extractBraces at h
    cases hf : firstBraceIdx s.data with
    | none => exact firstBraceIdx_none hf i hi
    | some i0 =>
      cases hl : lastCloseIdx s.data with
      | none => exact lastCloseIdx_none hl j hj
      | some j0 =>
        simp only [hf, hl] at h
        have hnot : ¬ i0 < j0 := by
          intro hlt
          rw [if_pos hlt] at h
          simp at h
        obtain ⟨_, hmin⟩ := firstBraceIdx_spec hf
        obtain ⟨_, hmax⟩ := lastCloseIdx_spec hl
        have hii : i0 ≤ i := not_lt.mp (fun hlt => hmin i hlt hi)
        have hjj : j ≤ j0 := not_lt.mp (fun hlt => hmax j hlt hj)
        omega
  · intro h
    cases he : extractBraces s with
    | none => rfl
    | some t =>
      exfalso
      unfold extractBraces at he
      cases hf : firstBraceIdx s.data with
      | none => simp only [hf] at he; exact Option.noConfusion he
      | some i0 =>
        cases hl : lastCloseIdx s.data with
        | none => simp only [hf, hl] at he; exact Option.noConfusion he
        | some j0 =>
          simp only [hf, hl] at he
          have hij : i0 < j0 := by
            by_cases hn : i0 < j0
            · exact hn
            · rw [if_neg hn] at he; simp at he
          exact h ⟨i0, j0, hij, (firstBraceIdx_spec hf).1, (lastCloseIdx_spec hl).1⟩

theorem extractBraces_some_spec {s : String} {t : String} (h : extractBraces s = some t) :
    ∃ i j : Nat, i < j ∧
      s.data[i]? = some '\x7b' ∧ (∀ k : Nat, k < i → s.data[k]? ≠ some '\x7b') ∧
      s.data[j]? = some '\x7d' ∧ (∀ k : Nat, j < k → s.data[k]? ≠ some '\x7d') ∧
      t = String.mk ((s.data.drop i).take (j + 1 - i)) := by
  unfold extractBraces at h
  cases hf : firstBraceIdx s.data with
  | none => simp only [hf] at h; exact Option.noConfusion h
  | some i0 =>
    cases hl : lastCloseIdx s.data with
    | none => simp only [hf, hl] at h; exact Option.noConfusion h
    | some j0 =>
      simp only [hf, hl] at h
      have hij : i0 < j0 := by
        by_cases hn : i0 < j0
        · exact hn
        · rw [if_neg hn] at h; simp at h
      rw [if_pos hij] at h
      simp only [Option.some.injEq] at h
      obtain ⟨h1, h2⟩ := firstBraceIdx_spec hf
      obtain ⟨h3, h4⟩ := lastCloseIdx_spec hl
      exact ⟨i0, j0, hij, h1, h2, h3, h4, h.symm⟩

theorem echo_category (t : Transaction) :
    (echoTransaction t).getField "category" = some (Json.str "Other") := by
  obtain ⟨d, a, dt⟩ := t
  cases dt <;> rfl

theorem echo_description (t : Transaction) :
    (echoTransaction t).getField "description" = some (Json.str t.description) := by
  obtain ⟨d, a, dt⟩ := t
  cases dt <;> rfl

theorem echo_amount (t : Transaction) :
    (echoTransaction t).getField "amount" = some (Json.num t.amount) := by
  obtain ⟨d, a, dt⟩ := t
  cases dt <;> rfl

/-- C2 (amended): on every result either pipeline returns, every element
of the categories list carries a category that is an exact member of the
17-label taxonomy; elementwise, the repair step keeps an exact
case-sensitive member, replaces the category of any other non-null
element with Other, and throws a TypeError on a null element (the
pipeline then surfaces an error instead of returning a result). -/
theorem c2_taxonomy_closure :
    (∀ (parse : String → Option Json) (txns : List Transaction) (pr : ProviderResult)
        (r : Json) (cats : List Json) (c : Json),
        categorizeTransactions parse txns pr = Except.ok r →
        r.getField "categories" = some (Json.arr cats) → c ∈ cats →
        ∃ s, c.getField "category" = some (Json.str s) ∧ VALID_CATEGORIES.contains s = true) ∧
    (∀ (parse : String → Option Json) (pr : ProviderResult)
        (r : Json) (cats : List Json) (c : Json),
        categorizePdfStatement parse pr = Except.ok r →
        r.getField "categories" = some (Json.arr cats) → c ∈ cats →
        ∃ s, c.getField "category" = some (Json.str s) ∧ VALID_CATEGORIES.contains s = true) ∧
    (∀ (c : Json) (s : String), c.getField "category" = some (Json.str s) →
        VALID_CATEGORIES.contains s = true →
        ∃ c2, repairCategory c = Except.ok c2 ∧
          c2.getField "category" = some (Json.str s)) ∧
    (∀ (c : Json) (s : String), c.getField "category" = some (Json.str s) →
        VALID_CATEGORIES.contains s = false →
        ∃ c2, repairCategory c = Except.ok c2 ∧
          c2.getField "category" = some (Json.str "Other")) ∧
    (∀ c : Json, c ≠ Json.null → (∀ s : String, c.getField "category" ≠ some (Json.str s)) →
        ∃ c2, repairCategory c = Except.ok c2 ∧
          c2.getField "category" = some (Json.str "Other")) ∧
    (∃ e, repairCategory Json.null = Except.error e) := by
  refine ⟨?_, ?_, ?_, ?_, ?_, ⟨_, repairCategory_null⟩⟩
  · intro parse txns pr r cats c h hcats hmem
    obtain ⟨x, hx⟩ := categorize_ok_repair h
    obtain ⟨cats0, cats2, _, hm, hc1⟩ := repairResult_ok_categories hx
    rw [hcats] at hc1
    simp only [Option.some.injEq, Json.arr.injEq] at hc1
    subst hc1
    obtain ⟨c0, _, hc0⟩ := mapRepair_mem hm c hmem
    exact repairCategory_ok_label hc0
  · intro parse pr r cats c h hcats hmem
    obtain ⟨x, hx⟩ := categorizePdf_ok_repair h
    obtain ⟨cats0, cats2, _, hm, hc1⟩ := repairResult_ok_categories hx
    rw [hcats] at hc1
    simp only [Option.some.injEq, Json.arr.injEq] at hc1
    subst hc1
    obtain ⟨c0, _, hc0⟩ := mapRepair_mem hm c hmem
    exact repairCategory_ok_label hc0
  · intro c s hc hv
    refine ⟨_, repairCategory_ne_null (fun hx => by rw [hx] at hc; exact Option.noConfusion hc), ?_⟩
    show findField (setPairs (spreadFields c) "category"
      (repairedLabel (c.getField "category"))) "category" = some (Json.str s)
    rw [findField_setPairs_self, hc]
    unfold repairedLabel
    show some (if VALID_CATEGORIES.contains s = true then Json.str s else Json.str "Other") =
      some (Json.str s)
    rw [if_pos hv]
  · intro c s hc hv
    refine ⟨_, repairCategory_ne_null (fun hx => by rw [hx] at hc; exact Option.noConfusion hc), ?_⟩
    show findField (setPairs (spreadFields c) "category"
      (repairedLabel (c.getField "category"))) "category" = some (Json.str "Other")
    rw [findField_setPairs_self, hc]
    unfold repairedLabel
    show some (if VALID_CATEGORIES.contains s = true then Json.str s else Json.str "Other") =
      some (Json.str "Other")
    have hvn : ¬ VALID_CATEGORIES.contains s = true := by
      rw [hv]
      exact Bool.false_ne_true
    rw [if_neg hvn]
  · intro c hcn hns
    refine ⟨_, repairCategory_ne_null hcn, ?_⟩
    show findField (setPairs (spreadFields c) "category"
      (repairedLabel (c.getField "category"))) "category" = some (Json.str "Other")
    rw [findField_setPairs_self]
    have hl : repairedLabel (c.getField "category") = Json.str "Other" := by
      cases hg : c.getField "category" with
      | none => rfl
      | some v =>
        cases v with
        | str s => exact absurd hg (hns s)
        | null => rfl
        | bool b => rfl
        | num q => rfl
        | arr l => rfl
        | obj fs => rfl
    rw [hl]

/-- C2 counterexample: for a parsed categories list containing a null
element, the repair step throws and the pipeline surfaces an error, so no
element is replaced with Other as the claim demands. -/
theorem c2_counterexample :
    repairCategory Json.null =
      Except.error "Cannot read properties of null (reading category)" ∧
    categorizeTransactions sampleNullCatParse [] (ProviderResult.ok "\x7b\x7d") =
      Except.error "Categorization failed: Cannot read properties of null (reading category)" ∧
    categorizePdfStatement sampleNullCatParse (ProviderResult.ok "\x7b\x7d") =
      Except.error "PDF processing failed: Cannot read properties of null (reading category)" :=
  ⟨rfl, rfl, rfl⟩

/-- C3: every result either pipeline returns has an insights array of
length at least 3. -/
theorem c3_insights_min_length :
    (∀ (parse : String → Option Json) (txns : List Transaction) (pr : ProviderResult)
        (r : Json), categorizeTransactions parse txns pr = Except.ok r →
        ∃ l, r.getField "insights" = some (Json.arr l) ∧ 3 ≤ l.length) ∧
    (∀ (parse : String → Option Json) (pr : ProviderResult) (r : Json),
        categorizePdfStatement parse pr = Except.ok r →
        ∃ l, r.getField "insights" = some (Json.arr l) ∧ 3 ≤ l.length) := by
  constructor
  · intro parse txns pr r h
    obtain ⟨x, hx⟩ := categorize_ok_repair h
    exact repairResult_ok_insights hx
  · intro parse pr r h
    obtain ⟨x, hx⟩ := categorizePdf_ok_repair h
    exact repairResult_ok_insights hx

/-- C5 (amended): whenever the parsed result's insights are missing, not
an array, or shorter than 3, and its categories array is free of null
elements (a null element instead makes the map throw before the insights
repair), the repair step replaces the whole insights sequence with the
canned 3-element generic sequence, never merging. -/
theorem c5_insights_wholesale_replacement :
    ∀ (r : Json) (cats : List Json),
      r.getField "categories" = some (Json.arr cats) →
      Json.null ∉ cats →
      insightsInvalid r = true →
      ∃ r', repairResult r = Except.ok r' ∧
        r'.getField "insights" = some (Json.arr (defaultInsights.map Json.str)) ∧
        (defaultInsights.map Json.str).length = 3 := by
  intro r cats hc hnn hbad
  obtain ⟨r', h1, h2⟩ := repairResult_insights_replaced hc hnn hbad
  exact ⟨r', h1, h2, rfl⟩

/-- C5 counterexample: a parsed result with empty (too-short) insights
and a null element in its categories array makes the pipeline throw, so
the insights are never replaced. -/
theorem c5_counterexample :
    insightsInvalid sampleNullCatResult = true ∧
    sampleNullCatResult.getField "categories" = some (Json.arr [Json.null]) ∧
    repairResult sampleNullCatResult =
      Except.error "Cannot read properties of null (reading category)" :=
  ⟨rfl, rfl, rfl⟩

/-- C6: the validator/repairer is the identity on already-valid results,
so running it twice equals running it once. -/
theorem c6_repair_idempotent :
    ∀ r : Json, isValidResult r = true →
      repairResult r = Except.ok r ∧
      (repairResult r).bind repairResult = repairResult r := by
  intro r h
  have h1 := repairResult_valid_id h
  refine ⟨h1, ?_⟩
  rw [h1]
  show repairResult r = Except.ok r
  exact h1

/-- C9: a response that parses to JSON whose categories field is missing
or not an array makes both pipelines raise an error, not a fallback. -/
theorem c9_bad_shape_raises :
    ∀ (parse : String → Option Json) (s : String) (r : Json),
      extractResult parse s = some r →
      hasArrayField r "categories" = false →
      (∀ txns : List Transaction,
        ∃ m, categorizeTransactions parse txns (ProviderResult.ok s) = Except.error m) ∧
      (∃ m, categorizePdfStatement parse (ProviderResult.ok s) = Except.error m) := by
  intro parse s r he hf
  obtain ⟨e, herr⟩ := repairResult_error hf
  constructor
  · intro txns
    rw [categorizeTransactions_ok_eq]
    simp only [he]
    rw [herr]
    exact ⟨_, rfl⟩
  · rw [categorizePdfStatement_ok_eq]
    simp only [he]
    rw [herr]
    exact ⟨_, rfl⟩

/-- C10 (amended): on a parsed categories list free of null elements, the
repair step succeeds and preserves list length and order, and on object
elements it changes no field other than category; a null element instead
makes the map throw, producing no output list. -/
theorem c10_repair_frame :
    ∀ cats : List Json, Json.null ∉ cats →
      ∃ cats2, mapRepair cats = Except.ok cats2 ∧ cats2.length = cats.length ∧
        ∀ (i : Nat) (c : Json), cats[i]? = some c →
          ∃ c2, repairCategory c = Except.ok c2 ∧ cats2[i]? = some c2 ∧
            ∀ fs, c = Json.obj fs → ∀ k, k ≠ "category" →
              c2.getField k = c.getField k := by
  intro cats hnn
  obtain ⟨cats2, h1, h2, h3⟩ := mapRepair_ok_pointwise hnn
  refine ⟨cats2, h1, h2, ?_⟩
  intro i c hi
  obtain ⟨c2, hc2, hc2i⟩ := h3 i c hi
  refine ⟨c2, hc2, hc2i, ?_⟩
  intro fs hfs k hk
  subst hfs
  rw [repairCategory_frame fs k hk hc2]
  rfl

/-- C10 counterexample: a categories list holding a null element produces
no output list at all; the map throws and the repair step errors. -/
theorem c10_counterexample :
    mapRepair [Json.null] =
      Except.error "Cannot read properties of null (reading category)" ∧
    repairResult (Json.obj [("categories", Json.arr [Json.null])]) =
      Except.error "Cannot read properties of null (reading category)" :=
  ⟨rfl, rfl⟩

/-- C1: on extraction failure (no JSON located, or the located substring
does not parse) the text-mode pipeline returns a successful result echoing
every input transaction with category Other plus a 3-element fallback
insight sequence, and the document-mode pipeline returns a successful
result with empty categories and its own distinct 3-element fallback
insight sequence; neither raises. -/
theorem c1_extraction_fallback :
    ∀ (parse : String → Option Json) (s : String) (txns : List Transaction),
      extractResult parse s = none →
      categorizeTransactions parse txns (ProviderResult.ok s) =
        Except.ok (fallbackTextResult txns) ∧
      (fallbackTextResult txns).getField "categories" =
        some (Json.arr (txns.map echoTransaction)) ∧
      (txns.map echoTransaction).length = txns.length ∧
      (∀ t : Transaction,
        (echoTransaction t).getField "category" = some (Json.str "Other") ∧
        (echoTransaction t).getField "description" = some (Json.str t.description) ∧
        (echoTransaction t).getField "amount" = some (Json.num t.amount)) ∧
      (fallbackTextResult txns).getField "insights" =
        some (Json.arr (fallbackInsightsText.map Json.str)) ∧
      fallbackInsightsText.length = 3 ∧
      categorizePdfStatement parse (ProviderResult.ok s) = Except.ok fallbackPdfResult ∧
      fallbackPdfResult.getField "categories" = some (Json.arr []) ∧
      fallbackPdfResult.getField "insights" =
        some (Json.arr (fallbackInsightsPdf.map Json.str)) ∧
      fallbackInsightsPdf.length = 3 ∧
      fallbackInsightsText ≠ fallbackInsightsPdf := by
  intro parse s txns he
  exact ⟨categorizeTransactions_extractFail txns he, rfl, List.length_map _ _,
    fun t => ⟨echo_category t, echo_description t, echo_amount t⟩, rfl, rfl,
    categorizePdfStatement_extractFail he, rfl, rfl, rfl, by decide⟩

/-- C4 (amended): a provider-call failure always surfaces as an error in
both pipelines, never as a fallback success; the text-mode message always
includes the underlying cause, and the document-mode message includes it
unless the cause mentions invalid_pdf, in which case a fixed friendly
message replaces it. -/
theorem c4_provider_error_surfaced :
    ∀ (parse : String → Option Json) (txns : List Transaction) (m : String),
      (∃ e, categorizeTransactions parse txns (ProviderResult.err m) = Except.error e ∧
        strIncludes e m = true) ∧
      (strIncludes m "invalid_pdf" = false →
        ∃ e, categorizePdfStatement parse (ProviderResult.err m) = Except.error e ∧
          strIncludes e m = true) ∧
      (strIncludes m "invalid_pdf" = true →
        categorizePdfStatement parse (ProviderResult.err m) =
          Except.error "Invalid PDF file. Please upload a valid bank statement PDF.") ∧
      (∀ r : Json,
        categorizeTransactions parse txns (ProviderResult.err m) ≠ Except.ok r ∧
        categorizePdfStatement parse (ProviderResult.err m) ≠ Except.ok r) := by
  intro parse txns m
  refine ⟨⟨"Categorization failed: " ++ m, categorizeTransactions_err parse txns m,
      strIncludes_append _ m⟩, ?_, ?_, ?_⟩
  · intro hno
    refine ⟨"PDF processing failed: " ++ m, ?_, strIncludes_append _ m⟩
    rw [categorizePdfStatement_err]
    unfold pdfErrorMessage
    rw [if_neg (by rw [hno]; exact Bool.false_ne_true)]
  · intro hyes
    rw [categorizePdfStatement_err]
    unfold pdfErrorMessage
    rw [if_pos hyes]
  · intro r
    constructor
    · rw [categorizeTransactions_err]
      simp
    · rw [categorizePdfStatement_err]
      simp

/-- C4 counterexample: for the provider failure invalid_pdf, the
document-mode pipeline raises the fixed friendly message, which does not
include the underlying cause string, contrary to the claim. -/
theorem c4_counterexample :
    categorizePdfStatement parseNone (ProviderResult.err "invalid_pdf") =
      Except.error "Invalid PDF file. Please upload a valid bank statement PDF." ∧
    strIncludes "Invalid PDF file. Please upload a valid bank statement PDF."
      "invalid_pdf" = false := by
  constructor
  · rfl
  · decide

/-- C7: the response extractor selects exactly the substring running from
the first left brace to the last right brace (it fails iff no left brace
is followed by a right brace), and the extraction step as a whole fails
iff no bracketed region exists or the selected substring does not parse. -/
theorem c7_extractor_contract :
    (∀ s : String, extractBraces s = none ↔
      ¬ ∃ i j : Nat, i < j ∧ s.data[i]? = some '\x7b' ∧ s.data[j]? = some '\x7d') ∧
    (∀ s t : String, extractBraces s = some t →
      ∃ i j : Nat, i < j ∧
        s.data[i]? = some '\x7b' ∧ (∀ k : Nat, k < i → s.data[k]? ≠ some '\x7b') ∧
        s.data[j]? = some '\x7d' ∧ (∀ k : Nat, j < k → s.data[k]? ≠ some '\x7d') ∧
        t = String.mk ((s.data.drop i).take (j + 1 - i))) ∧
    (∀ (parse : String → Option Json) (s : String),
      extractResult parse s = none ↔
        extractBraces s = none ∨ ∃ t, extractBraces s = some t ∧ parse t = none) := by
  refine ⟨extractBraces_none_iff, fun s t h => extractBraces_some_spec h, ?_⟩
  intro parse s
  unfold extractResult
  cases he : extractBraces s with
  | none => simp
  | some t =>
    show parse t = none ↔ _
    constructor
    · intro h
      exact Or.inr ⟨t, rfl, h⟩
    · rintro (h | ⟨t0, ht0, hp⟩)
      · exact Option.noConfusion h
      · obtain rfl : t = t0 := by injection ht0
        exact hp

theorem isNull_true_iff (t : Json) : t.isNull = true ↔ t = Json.null := by
  cases t with
  | null => simp [Json.isNull]
  | bool b => simp [Json.isNull]
  | num q => simp [Json.isNull]
  | str s => simp [Json.isNull]
  | arr l => simp [Json.isNull]
  | obj fs => simp [Json.isNull]

theorem transactionInvalid_null : transactionInvalid Json.null = true := rfl

theorem findElemFailure_none_iff (ts : List Json) :
    findElemFailure ts = none ↔ ∀ t ∈ ts, transactionInvalid t = false := by
  induction ts with
  | nil => simp [findElemFailure]
  | cons t rest ih =>
    unfold findElemFailure
    by_cases hn : t.isNull = true
    · rw [if_pos hn]
      constructor
      · intro h
        exact Option.noConfusion h
      · intro h
        have ht := h t (List.mem_cons_self t rest)
        rw [(isNull_true_iff t).mp hn, transactionInvalid_null] at ht
        exact Bool.noConfusion ht
    · rw [if_neg hn]
      by_cases hi : transactionInvalid t = true
      · rw [if_pos hi]
        constructor
        · intro h
          exact Option.noConfusion h
        · intro h
          rw [h t (List.mem_cons_self t rest)] at hi
          exact Bool.noConfusion hi
      · rw [if_neg hi]
        constructor
        · intro h t0 ht0
          rcases List.mem_cons.mp ht0 with h0 | h0
          · subst h0
            cases hb : transactionInvalid t0 with
            | false => rfl
            | true => exact absurd hb hi
          · exact (ih.mp h) t0 h0
        · intro h
          exact ih.mpr (fun t0 ht0 => h t0 (List.mem_cons_of_mem t ht0))

theorem findElemFailure_not_call {ts : List Json} {a : RouteAction}
    (h : findElemFailure ts = some a) :
    ∀ l : List Json, a ≠ RouteAction.callService l := by
  induction ts with
  | nil => exact absurd h (by simp [findElemFailure])
  | cons t rest ih =>
    unfold findElemFailure at h
    by_cases hn : t.isNull = true
    · rw [if_pos hn] at h
      injection h with h2
      subst h2
      intro l hx
      exact RouteAction.noConfusion hx
    · rw [if_neg hn] at h
      by_cases hi : transactionInvalid t = true
      · rw [if_pos hi] at h
        injection h with h2
        subst h2
        intro l hx
        exact RouteAction.noConfusion hx
      · rw [if_neg hi] at h
        exact ih h

theorem route_eq_error {body : Json} {e : String}
    (hj : jsGet body "transactions" = Except.error e) :
    categorizeRoute body = RouteAction.serverError e := by
  unfold categorizeRoute
  rw [hj]

theorem route_eq_notArr {body : Json} {o : Option Json}
    (hj : jsGet body "transactions" = Except.ok o)
    (ho : ∀ ts : List Json, o ≠ some (Json.arr ts)) :
    categorizeRoute body = RouteAction.reject "transactions array is required" := by
  cases o with
  | none =>
    unfold categorizeRoute
    simp only [hj]
  | some v =>
    cases v
    case arr ts => exact absurd rfl (ho ts)
    all_goals
      unfold categorizeRoute
    all_goals
      simp only [hj]

theorem route_eq_arr {body : Json} {ts : List Json}
    (hj : jsGet body "transactions" = Except.ok (some (Json.arr ts))) :
    categorizeRoute body =
      (if ts.length = 0 then
        RouteAction.reject "transactions array cannot be empty"
      else if 1000 < ts.length then
        RouteAction.reject "Maximum 1000 transactions allowed per request"
      else
        match findElemFailure ts with
        | some act => act
        | none => RouteAction.callService ts) := by
  unfold categorizeRoute
  rw [hj]

/-- C8 (amended): the text-mode route calls the service exactly when the
body has a transactions array of 1 to 1000 elements in which every
element has a present truthy description and a numeric amount; it rejects
with a client error otherwise (so also when a description is present but
falsy, e.g. the empty string), except that a null element makes the
description read throw, surfacing a server error instead. -/
theorem c8_route_validation :
    (∀ (body : Json) (ts : List Json),
      categorizeRoute body = RouteAction.callService ts ↔
        body.getField "transactions" = some (Json.arr ts) ∧ 0 < ts.length ∧
        ts.length ≤ 1000 ∧ ∀ t ∈ ts, transactionInvalid t = false) ∧
    (∀ t : Json, transactionInvalid t = false ↔
        (∃ v, t.getField "description" = some v ∧ truthy v = true) ∧
        (∃ q : Rat, t.getField "amount" = some (Json.num q))) := by
  constructor
  · intro body ts
    constructor
    · intro h
      cases hj : jsGet body "transactions" with
      | error e =>
        rw [route_eq_error hj] at h
        exact RouteAction.noConfusion h
      | ok o =>
        have hg : body.getField "transactions" = o := jsGet_ok_getField hj
        cases o with
        | none =>
          rw [route_eq_notArr hj (fun l hl => Option.noConfusion hl)] at h
          exact RouteAction.noConfusion h
        | some v =>
          cases v
          case arr ts0 =>
            rw [route_eq_arr hj] at h
            by_cases h0 : ts0.length = 0
            · rw [if_pos h0] at h
              exact RouteAction.noConfusion h
            · rw [if_neg h0] at h
              by_cases h1 : 1000 < ts0.length
              · rw [if_pos h1] at h
                exact RouteAction.noConfusion h
              · rw [if_neg h1] at h
                cases hf : findElemFailure ts0 with
                | some a =>
                  rw [hf] at h
                  exact absurd h (findElemFailure_not_call hf ts)
                | none =>
                  rw [hf] at h
                  have hts : ts0 = ts := by injection h
                  subst hts
                  refine ⟨hg, by omega, by omega, ?_⟩
                  exact (findElemFailure_none_iff ts0).mp hf
          all_goals
            rw [route_eq_notArr hj
              (fun l hl => by injection hl with h2; exact Json.noConfusion h2)] at h
          all_goals
            exact RouteAction.noConfusion h
    · rintro ⟨hb, h0, h1, h2⟩
      have hj : jsGet body "transactions" = Except.ok (some (Json.arr ts)) :=
        getField_some_jsGet hb
      rw [route_eq_arr hj]
      rw [if_neg (by omega), if_neg (by omega)]
      rw [(findElemFailure_none_iff ts).mpr h2]
  · intro t
    unfold transactionInvalid
    rw [Bool.or_eq_false_iff]
    have hd : (match t.getField "description" with
        | some v => !(truthy v)
        | none => true) = false ↔
        ∃ v, t.getField "description" = some v ∧ truthy v = true := by
      cases hdd : t.getField "description" with
      | none => simp
      | some v => simp
    have ha : (match t.getField "amount" with
        | some (Json.num _) => false
        | _ => true) = false ↔
        ∃ q : Rat, t.getField "amount" = some (Json.num q) := by
      cases haa : t.getField "amount" with
      | none => simp
      | some v => cases v <;> simp
    exact and_congr hd ha

/-- C8 counterexample: a transaction with a present (empty-string)
description and a numeric amount is rejected by the route even though the
claim says such a request reaches the pipeline. -/
theorem c8_counterexample :
    categorizeRoute sampleEmptyDescBody =
      RouteAction.reject "Each transaction must have description (string) and amount (number)" ∧
    (Json.obj [("description", Json.str ""), ("amount", Json.num 5)]).getField
      "description" = some (Json.str "") ∧
    (Json.obj [("description", Json.str ""), ("amount", Json.num 5)]).getField
      "amount" = some (Json.num 5) ∧
    sampleEmptyDescBody.getField "transactions" =
      some (Json.arr [Json.obj [("description", Json.str ""), ("amount", Json.num 5)]]) := by
  exact ⟨rfl, rfl, rfl, rfl⟩

theorem c1_witness :
    categorizeTransactions parseNone [⟨"Coffee", 5, none⟩] (ProviderResult.ok "plain prose") =
      Except.ok (fallbackTextResult [⟨"Coffee", 5, none⟩]) ∧
    categorizePdfStatement parseNone (ProviderResult.ok "plain prose") =
      Except.ok fallbackPdfResult := by
  have h := c1_extraction_fallback parseNone "plain prose" [⟨"Coffee", 5, none⟩] rfl
  exact ⟨h.1, h.2.2.2.2.2.2.1⟩

theorem c2_witness :
    ∃ c2, repairCategory sampleElement = Except.ok c2 ∧
      c2.getField "category" = some (Json.str "Other") :=
  c2_taxonomy_closure.2.2.2.1 sampleElement "Bogus" rfl (by decide)

theorem c3_witness :
    ∃ l, (fallbackTextResult [⟨"Rent", -900, some "01-01-2025"⟩]).getField "insights" =
      some (Json.arr l) ∧ 3 ≤ l.length :=
  c3_insights_min_length.1 parseNone [⟨"Rent", -900, some "01-01-2025"⟩]
    (ProviderResult.ok "no json here") (fallbackTextResult [⟨"Rent", -900, some "01-01-2025"⟩])
    (by rfl)

theorem c4_witness :
    ∃ e, categorizeTransactions parseNone [] (ProviderResult.err "ECONNRESET") =
      Except.error e ∧ strIncludes e "ECONNRESET" = true :=
  (c4_provider_error_surfaced parseNone [] "ECONNRESET").1

theorem c5_witness :
    ∃ r', repairResult sampleShortInsights = Except.ok r' ∧
      r'.getField "insights" = some (Json.arr (defaultInsights.map Json.str)) ∧
      (defaultInsights.map Json.str).length = 3 :=
  c5_insights_wholesale_replacement sampleShortInsights [] rfl (by simp) rfl

theorem c6_witness :
    repairResult sampleValidResult = Except.ok sampleValidResult ∧
    (repairResult sampleValidResult).bind repairResult = repairResult sampleValidResult :=
  c6_repair_idempotent sampleValidResult rfl

theorem c7_witness :
    ∃ i j : Nat, i < j ∧
      ("ab\x7bc\x7dd" : String).data[i]? = some '\x7b' ∧
      (∀ k : Nat, k < i → ("ab\x7bc\x7dd" : String).data[k]? ≠ some '\x7b') ∧
      ("ab\x7bc\x7dd" : String).data[j]? = some '\x7d' ∧
      (∀ k : Nat, j < k → ("ab\x7bc\x7dd" : String).data[k]? ≠ some '\x7d') ∧
      "\x7bc\x7d" = String.mk ((("ab\x7bc\x7dd" : String).data.drop i).take (j + 1 - i)) :=
  c7_extractor_contract.2.1 "ab\x7bc\x7dd" "\x7bc\x7d" rfl

theorem c8_witness :
    categorizeRoute sampleGoodBody =
      RouteAction.callService
        [Json.obj [("description", Json.str "Coffee"), ("amount", Json.num 4)]] :=
  (c8_route_validation.1 sampleGoodBody
    [Json.obj [("description", Json.str "Coffee"), ("amount", Json.num 4)]]).mpr
    ⟨rfl, by decide, by decide, by decide⟩

theorem c9_witness :
    (∀ txns : List Transaction,
      ∃ m, categorizeTransactions sampleBadParse txns (ProviderResult.ok "\x7b\x7d") =
        Except.error m) ∧
    (∃ m, categorizePdfStatement sampleBadParse (ProviderResult.ok "\x7b\x7d") =
      Except.error m) :=
  c9_bad_shape_raises sampleBadParse "\x7b\x7d" (Json.obj [("categories", Json.str "nope")])
    rfl rfl

theorem c10_witness :
    ∃ cats2, mapRepair [sampleElement] = Except.ok cats2 ∧
      cats2.length = ([sampleElement] : List Json).length ∧
      ∀ (i : Nat) (c : Json), ([sampleElement] : List Json)[i]? = some c →
        ∃ c2, repairCategory c = Except.ok c2 ∧ cats2[i]? = some c2 ∧
          ∀ fs, c = Json.obj fs → ∀ k, k ≠ "category" →
            c2.getField k = c.getField k :=
  c10_repair_frame [sampleElement] (by simp [sampleElement])
